import Mathlib

/-!
Verification development for the handshook repository
(src/handshake.py and src/extract_jobs_from_html.py).

The Python sources are shallowly embedded as executable Lean functions:
strings are lists of characters (Python indexes and compares by code
point), network effects are an explicit oracle (`Env`) mapping a job
identifier to the detail-fetch result and the submission status code, and
the run orchestrator `main` of handshake.py becomes a pure state-passing
function `runCore` / `finalizeRun` / `runMain` over an explicit
`RunInput`.
-/

namespace Handshook

/-! ### Python string primitives

Python compares strings lexicographically by code point; `Char.toNat` is
the code point of a character. -/

/-- Code-point comparison of two characters, as Python compares them. -/
def charLtB (a b : Char) : Bool := decide (a.toNat < b.toNat)

/-- Bool-valued list equality through decidable equality. -/
def isPrefixB : List Char → List Char → Bool
  | [], _ => true
  | _ :: _, [] => false
  | a :: as, b :: bs => a == b && isPrefixB as bs

/-- Substring test, Python's `needle in hay`. -/
def isInfixB (needle : List Char) : List Char → Bool
  | [] => needle.isEmpty
  | c :: t => isPrefixB needle (c :: t) || isInfixB needle t

/-- Lexicographic strict comparison of code-point lists: Python's `<` on
strings. -/
def lexLt : List Char → List Char → Bool
  | [], [] => false
  | [], _ :: _ => true
  | _ :: _, [] => false
  | a :: as, b :: bs =>
    if charLtB a b then true
    else if charLtB b a then false
    else lexLt as bs

/-- Python's `a < b` on `str`, over Lean `String`. -/
def pyStrLt (a b : String) : Bool := lexLt a.data b.data

/-- Python's `str.lower`, restricted to the ASCII case mapping. -/
def strLower (s : String) : String := ⟨s.data.map Char.toLower⟩

/-- Python's `needle in hay` on strings. -/
def strContains (hay needle : String) : Bool := isInfixB needle.data hay.data

/-- Python's regex class `\d` (str pattern, no `re.ASCII`) and
`str.isdigit` accept every Unicode decimal digit (category Nd), and
`int` converts each such digit by its decimal value.  This model carries
the ASCII block together with three representative non-ASCII Nd blocks —
Arabic-Indic U+0660-0669, Extended Arabic-Indic U+06F0-06F9 and
Devanagari U+0966-096F — which suffice to exhibit the cross-script
behaviour of the real extractor (set order is by code point, conversion
by digit value).  Conclusions that depend on the digit class are stated
only for all-ASCII documents, on which this model agrees with Python
exactly. -/
def digitVal? (c : Char) : Option Nat :=
  if 48 ≤ c.toNat ∧ c.toNat ≤ 57 then some (c.toNat - 48)
  else if 1632 ≤ c.toNat ∧ c.toNat ≤ 1641 then some (c.toNat - 1632)
  else if 1776 ≤ c.toNat ∧ c.toNat ≤ 1785 then some (c.toNat - 1776)
  else if 2406 ≤ c.toNat ∧ c.toNat ≤ 2415 then some (c.toNat - 2406)
  else none

/-- The digit test of the extractor's regex `\d` and of `str.isdigit`. -/
def isDigitB (c : Char) : Bool := (digitVal? c).isSome

/-- Python's `int` on a string of decimal digits (of any script). -/
def digitsToNat : List Char → Nat
  | [] => 0
  | c :: cs => (digitVal? c).getD 0 * 10 ^ cs.length + digitsToNat cs

/-! ### extract_jobs_from_html.py -/

/-- The literal part of the regex `job-search/(\d{8})`
(src/extract_jobs_from_html.py line 21). -/
def jobSearchLit : List Char := "job-search/".data

/-- All captures of `re.findall(r'job-search/(\d{8})', text)`, leftmost
first.  `re.findall` resumes scanning after the end of each match, while
this function always advances one character; the two agree because the
literal `job-search/` cannot begin strictly inside a match (every
character of a match after its first is one of `o b - s e a r c h /` or a
digit, never `j`), so matches can never overlap. -/
def scanMatches : List Char → List (List Char)
  | [] => []
  | c :: rest =>
    let tok := ((c :: rest).drop 11).take 8
    if isPrefixB jobSearchLit (c :: rest) && (tok.length == 8) && tok.all isDigitB then
      tok :: scanMatches rest
    else
      scanMatches rest

/-- Insert into a strictly sorted list, dropping an exact duplicate. -/
def insertSorted (s : List Char) : List (List Char) → List (List Char)
  | [] => [s]
  | t :: rest =>
    if lexLt s t then s :: t :: rest
    else if s = t then t :: rest
    else t :: insertSorted s rest

/-- Python's `sorted(list(set(xs)))` on strings: the strictly sorted list
of the distinct elements. -/
def sortDedup : List (List Char) → List (List Char)
  | [] => []
  | s :: rest => insertSorted s (sortDedup rest)

/-- Abstraction of one parsed HTML document as the extractor sees it:
the raw text, the `Jobs List` region when BeautifulSoup locates it
(`str(jobs_list_region)`), the `href` attributes of all anchor tags, and
whether BeautifulSoup raised (the `except` fallback path). -/
structure HtmlDoc where
  text : List Char
  region : Option (List Char)
  linkHrefs : List (List Char)
  parseFails : Bool

/-- Every character of the abstracted document is ASCII.  On such
documents the digit model `digitVal?` coincides with Python's Unicode
digit semantics, so the digit-class-sensitive properties of the
extractor are stated under this hypothesis. -/
def HtmlDoc.ascii (doc : HtmlDoc) : Bool :=
  doc.text.all (fun c => decide (c.toNat < 128)) &&
    (match doc.region with
     | some r => r.all (fun c => decide (c.toNat < 128))
     | none => true) &&
    doc.linkHrefs.all (fun h => h.all (fun c => decide (c.toNat < 128)))

/-- Method 1 (src/extract_jobs_from_html.py lines 27-34): captures found
inside the Jobs List region, when the region was located. -/
def regionIds (doc : HtmlDoc) : List (List Char) :=
  match doc.region with
  | some r => scanMatches r
  | none => []

/-- Method 2 (lines 36-40): the document-wide scan, run only when the
accumulated set is still empty after Method 1. -/
def fullIds (doc : HtmlDoc) : List (List Char) :=
  if regionIds doc = [] then scanMatches doc.text else []

/-- Method 3 (lines 42-48): the first capture of `re.search` in each
anchor `href`; hrefs without a match contribute nothing. -/
def linkIds (doc : HtmlDoc) : List (List Char) :=
  doc.linkHrefs.filterMap (fun h => (scanMatches h).head?)

/-- The contents of the `job_ids` set after the try/except block
(lines 23-55); on a BeautifulSoup failure only the document-wide
fallback scan runs. -/
def collectIds (doc : HtmlDoc) : List (List Char) :=
  if doc.parseFails then scanMatches doc.text
  else regionIds doc ++ fullIds doc ++ linkIds doc

/-- src/extract_jobs_from_html.py lines 12-63: collect captures, sort
the de-duplicated set, keep 8-character digit strings, convert to int. -/
def extract_job_ids_from_html (doc : HtmlDoc) : List Nat :=
  ((sortDedup (collectIds doc)).filter
      (fun s => s.length == 8 && s.all isDigitB)).map digitsToNat

/-! ### handshake.py session client: get_csrf_token -/

/-- The meta-tag marker searched by get_csrf_token
(src/handshake.py line 206); its length is 33. -/
def csrfMarker : List Char := "<meta name=\"csrf-token\" content=\"".data

/-- Python's `hay.find(needle)` restricted to its found/not-found shape:
index of the first occurrence, `none` for Python's `-1`. -/
def findSub (needle : List Char) : List Char → Option Nat
  | [] => if needle.isEmpty then some 0 else none
  | c :: t => if isPrefixB needle (c :: t) then some 0 else (findSub needle t).map (· + 1)

/-- src/handshake.py line 15. -/
def LEN_CSRF : Nat := 88

/-- src/handshake.py lines 203-207: `find` yields `-1` when the marker is
absent, so the slice then starts at `-1 + 33 = 32`. -/
def get_csrf_token (pageText : List Char) : List Char :=
  let found : Int :=
    match findSub csrfMarker pageText with
    | some i => (i : Int)
    | none => -1
  let index : Int := found + (csrfMarker.length : Int)
  (pageText.drop index.toNat).take LEN_CSRF

/-! ### handshake.py data model -/

/-- src/handshake.py line 20. -/
def RESUME_TYPE_ID : Nat := 1

/-- src/handshake.py line 21. -/
def COVER_TYPE_ID : Nat := 2

/-- src/handshake.py line 22. -/
def TRANSCRIPT_TYPE_ID : Nat := 3

/-- src/handshake.py line 23. -/
def OTHER_DOCUMENT_TYPE_ID : Nat := 5

/-- The `cls.documents` mapping built in `Job.set` (lines 377-378); a
configured value of `0` is falsy in Python exactly like a missing one. -/
structure DocumentSet where
  resume : Option Nat
  cover : Option Nat
  transcript : Option Nat
  other : Option Nat
deriving DecidableEq

/-- `self.documents.get(document_type_id)` against the four keys. -/
def DocumentSet.get (ds : DocumentSet) (dtid : Nat) : Option Nat :=
  if dtid = RESUME_TYPE_ID then ds.resume
  else if dtid = COVER_TYPE_ID then ds.cover
  else if dtid = TRANSCRIPT_TYPE_ID then ds.transcript
  else if dtid = OTHER_DOCUMENT_TYPE_ID then ds.other
  else none

/-- The listing-record fields the decision logic reads (`Job.__init__`,
lines 349-356). -/
structure JobData where
  job_id : Nat
  job_name : String
  created_at : String
  apply_start : Option String
deriving DecidableEq

/-- The detail fields extracted from a successful detail fetch
(lines 400-409). -/
structure JobDetails where
  apply_type : Option String
  document_type_ids : List Nat
deriving DecidableEq

/-- Result of `Job.apply` (lines 420-457): the numeric return code and
whether the submission POST of line 451 was issued. -/
structure ApplyResult where
  code : Nat
  posted : Bool
deriving DecidableEq

/-- The network, as a deterministic oracle keyed by job identifier:
`fetch` is the detail request (none models a non-200 response or an
exception, i.e. `fetch_details` returning False), `postStatus` the HTTP
status returned by the submission endpoint. -/
structure Env where
  fetch : Nat → Option JobDetails
  postStatus : Nat → Nat

/-- `if self.start and self.start > self.now` (line 431): truthiness of
the string plus Python string comparison. -/
def startBlocks (start : Option String) (now : String) : Bool :=
  match start with
  | some s => decide (s ≠ "") && pyStrLt now s
  | none => false

/-- The `apply_type` value that allows in-platform submission
(line 429). -/
def handshakeType : String := "handshake"

/-- The document loop of lines 437-446: `none` models the `return 4`
paths (unrecognized category, or a falsy configured document id),
`some ids` the collected `document_ids` list. -/
def collectDocuments (ds : DocumentSet) : List Nat → Option (List Nat)
  | [] => some []
  | dtid :: rest =>
    if dtid = RESUME_TYPE_ID ∨ dtid = COVER_TYPE_ID ∨ dtid = TRANSCRIPT_TYPE_ID ∨
        dtid = OTHER_DOCUMENT_TYPE_ID then
      match ds.get dtid with
      | some d => if d ≠ 0 then (collectDocuments ds rest).map (fun l => d :: l) else none
      | none => none
    else none

/-- src/handshake.py lines 420-457.  The callers in `main` always build
`Job(job_data)` without full details, so the details come from the
detail fetch; `requests.codes.ok` is 200. -/
def Job.apply (env : Env) (now : String) (ds : DocumentSet) (jd : JobData) : ApplyResult :=
  match env.fetch jd.job_id with
  | none => ⟨5, false⟩
  | some det =>
    if det.apply_type ≠ some handshakeType then ⟨3, false⟩
    else if startBlocks jd.apply_start now then ⟨2, false⟩
    else
      match collectDocuments ds det.document_type_ids with
      | none => ⟨4, false⟩
      | some _ => if env.postStatus jd.job_id ≠ 200 then ⟨1, true⟩ else ⟨0, true⟩

/-! ### handshake.py run orchestration (main, lines 468-662) -/

/-- Mutable run state threaded through `main`: the `cookie_error` flag,
the `wait_list` being collected, the ids appended to the jobs file, the
ids for which a submission POST was issued, the order in which
`Job.apply` was invoked, and the `jobs_checked` counter. -/
structure RunAcc where
  cookieError : Bool
  waitList : List JobData
  appliedIds : List Nat
  postedIds : List Nat
  evaluated : List Nat
  jobsChecked : Nat
deriving DecidableEq

/-- State at the top of `main`. -/
def RunAcc.initial : RunAcc :=
  { cookieError := false, waitList := [], appliedIds := [], postedIds := [],
    evaluated := [], jobsChecked := 0 }

/-- Whether the loop around this job continues or breaks. -/
inductive StepOut where
  | cont (acc : RunAcc)
  | halt (acc : RunAcc)

/-- The shared per-job outcome handling of all three loops
(lines 484-492, 530-548, 626-636): code 0 appends to the jobs file,
code 2 appends the snapshot to `wait_list`, code 1 sets `cookie_error`
and breaks, codes 3/4/5 fall through. -/
def stepJob (acc : RunAcc) (jd : JobData) (r : ApplyResult) : StepOut :=
  let acc2 := { acc with
    evaluated := acc.evaluated ++ [jd.job_id],
    postedIds := if r.posted then acc.postedIds ++ [jd.job_id] else acc.postedIds }
  if r.code = 0 then .cont { acc2 with appliedIds := acc2.appliedIds ++ [jd.job_id] }
  else if r.code = 2 then .cont { acc2 with waitList := acc2.waitList ++ [jd] }
  else if r.code = 1 then .halt { acc2 with cookieError := true }
  else .cont acc2

/-- Deferred replay, lines 482-492: the loop over `waited_list`.
It does not touch `jobs_checked`. -/
def replayDeferred (env : Env) (now : String) (ds : DocumentSet) :
    List JobData → RunAcc → RunAcc
  | [], acc => acc
  | jd :: rest, acc =>
    match stepJob acc jd (Job.apply env now ds jd) with
    | .cont acc2 => replayDeferred env now ds rest acc2
    | .halt acc2 => acc2

/-- The minimal job record built for an explicit identifier
(lines 521-527); `created_at` is the current time, `apply_start` None. -/
def mkSpecificJobData (createdAt : String) (id : Nat) : JobData :=
  { job_id := id, job_name := "Job ID " ++ toString id,
    created_at := createdAt, apply_start := none }

/-- The explicit-identifier loop, lines 517-548.  Note: `main` enters it
whenever `new_jobs.csv` yielded identifiers, with no check of
`cookie_error`. -/
def processSpecific (env : Env) (now : String) (ds : DocumentSet) (createdAt : String) :
    List Nat → RunAcc → RunAcc
  | [], acc => acc
  | id :: rest, acc =>
    let acc1 := { acc with jobsChecked := acc.jobsChecked + 1 }
    let jd := mkSpecificJobData createdAt id
    match stepJob acc1 jd (Job.apply env now ds jd) with
    | .cont acc2 => processSpecific env now ds createdAt rest acc2
    | .halt acc2 => acc2

/-- The client-side keyword filter of lines 572-573 and 614-620:
skip when the lowered title contains an exclude term, or when include
terms exist and the title contains none of them. -/
def keywordSkip (jobKeywords skipKeywords : List String) (name : String) : Bool :=
  let lower := strLower name
  let skips := skipKeywords.map strLower
  let keeps := jobKeywords.map strLower
  (!skips.isEmpty && skips.any (fun k => strContains lower k))
    || (!keeps.isEmpty && !keeps.any (fun k => strContains lower k))

/-- Configuration fields read by `main` (conf.json). -/
structure Configs where
  valid : Bool
  date : String
  documents : DocumentSet
  job_keywords : List String
  skip_keywords : List String
deriving DecidableEq

/-- One response of the paginated listing endpoint. -/
structure Page where
  status : Nat
  results : List JobData
deriving DecidableEq

/-- The inner for-loop of the pagination phase, lines 609-636.  The
returned Bool is `see_old_jobs`: the watermark comparison of line 623 is
`configs["date"] > job.date`, i.e. strictly older than the watermark. -/
def processPage (cfg : Configs) (env : Env) (now : String) :
    List JobData → RunAcc → RunAcc × Bool
  | [], acc => (acc, false)
  | jd :: rest, acc =>
    let acc1 := { acc with jobsChecked := acc.jobsChecked + 1 }
    if keywordSkip cfg.job_keywords cfg.skip_keywords jd.job_name then
      processPage cfg env now rest acc1
    else if pyStrLt jd.created_at cfg.date then
      (acc1, true)
    else
      match stepJob acc1 jd (Job.apply env now cfg.documents jd) with
      | .cont acc2 => processPage cfg env now rest acc2
      | .halt acc2 => (acc2, false)

/-- The while loop of lines 585-637 over successive listing pages.  The
environment supplies the finite sequence of page responses; exhaustion of
the list models the platform answering with an empty result list, which
breaks the loop (line 604).  A non-200 listing response sets
`cookie_error` (lines 597-600). -/
def processPages (cfg : Configs) (env : Env) (now : String) :
    List Page → RunAcc → RunAcc
  | [], acc => acc
  | pg :: rest, acc =>
    if acc.cookieError then acc
    else if pg.status ≠ 200 then { acc with cookieError := true }
    else if pg.results.isEmpty then acc
    else
      let res := processPage cfg env now pg.results acc
      if res.2 then res.1
      else if res.1.cookieError then res.1
      else processPages cfg env now rest res.1

/-- Everything one execution of `main` consumes: the configuration, the
contents of wait.json (`waited_list`), the identifiers parsed from
new_jobs.csv (`[]` models the file being absent or empty, which is falsy),
the listing pages, the network oracle, `Job.now` (set in `Job.set`,
line 380), the `date` variable of line 496, the session cookie jar, and
the pre-existing jobs.csv application log. -/
structure RunInput where
  cfg : Configs
  waitedList : List JobData
  specificIds : List Nat
  pages : List Page
  env : Env
  now : String
  runDate : String
  sessionCookies : List (String × String)
  jobsFileStart : List Nat

/-- Lines 479-637: deferred replay, then either the explicit-identifier
loop (when `specific_job_ids` is truthy) or pagination.  The explicit
loop is entered regardless of `cookie_error`; the pagination while-loop
condition (line 585) does consult it. -/
def runCore (inp : RunInput) : RunAcc :=
  let acc1 := replayDeferred inp.env inp.now inp.cfg.documents inp.waitedList RunAcc.initial
  if inp.specificIds.isEmpty then
    processPages inp.cfg inp.env inp.now inp.pages acc1
  else
    processSpecific inp.env inp.now inp.cfg.documents inp.runDate inp.specificIds acc1

/-- The durable effects of one run. -/
structure RunOutput where
  acc : RunAcc
  confValid : Bool
  confDate : String
  confCookies : List (String × String)
  waitFileWritten : Option (List JobData)
  jobsFile : List Nat
deriving DecidableEq

/-- Lines 639-662: `valid` becomes the negated error flag, cookies are
always copied back, and the watermark update and the write of wait.json
happen only in the no-error branch. -/
def finalizeRun (inp : RunInput) (acc : RunAcc) : RunOutput :=
  { acc := acc
    confValid := !acc.cookieError
    confDate := if acc.cookieError then inp.cfg.date else inp.runDate
    confCookies := inp.sessionCookies
    waitFileWritten := if acc.cookieError then none else some acc.waitList
    jobsFile := inp.jobsFileStart ++ acc.appliedIds }

/-- Lines 468-473 and onward: an invalid configuration exits immediately
(`exit(1)`), otherwise the run executes and persists. -/
def runMain (inp : RunInput) : Option RunOutput :=
  if inp.cfg.valid then some (finalizeRun inp (runCore inp)) else none

/-- The accumulator carried out of a loop step, whether it continued or
broke. -/
def StepOut.out : StepOut → RunAcc
  | .cont a => a
  | .halt a => a

/-- The strict-sortedness relation used for the extractor proofs. -/
def ltP (a b : List Char) : Prop := lexLt a b = true

/-! ### Concrete example inputs used by witnesses and counterexamples -/

/-- A document set with resume, cover and transcript configured and no
`other` entry. -/
def exDocSet : DocumentSet :=
  { resume := some 10, cover := some 11, transcript := some 12, other := none }

/-- A network in which every job is an open in-platform job with no
required documents; submission succeeds except for the listed ids. -/
def mkEnv (failingIds : List Nat) : Env :=
  { fetch := fun _ => some { apply_type := some handshakeType, document_type_ids := [] },
    postStatus := fun i => if i ∈ failingIds then 500 else 200 }

/-- A configuration with no keyword filters. -/
def mkCfg (date : String) : Configs :=
  { valid := true, date := date, documents := exDocSet,
    job_keywords := [], skip_keywords := [] }

/-- A job whose application window has not opened yet at now = `"2025"`. -/
def exFutureJob : JobData :=
  { job_id := 1, job_name := "future", created_at := "2025", apply_start := some "9999" }

/-- A job with no window restriction. -/
def exOpenJob (id : Nat) : JobData :=
  { job_id := id, job_name := "open", created_at := "2025", apply_start := none }

def c1xInp : RunInput :=
  { cfg := mkCfg "2024", waitedList := [exFutureJob, exOpenJob 2],
    specificIds := [], pages := [], env := mkEnv [2], now := "2025",
    runDate := "2025-06", sessionCookies := [("sid", "abc")], jobsFileStart := [] }

def c1wInp : RunInput :=
  { cfg := mkCfg "2024", waitedList := [exOpenJob 4],
    specificIds := [], pages := [], env := mkEnv [4], now := "2025",
    runDate := "2025-06", sessionCookies := [("k", "v")], jobsFileStart := [] }

def c2xInp : RunInput :=
  { cfg := mkCfg "2024", waitedList := [exOpenJob 7],
    specificIds := [], pages := [], env := mkEnv [], now := "2025",
    runDate := "2025-06", sessionCookies := [], jobsFileStart := [7] }

def c2wInp : RunInput :=
  { cfg := mkCfg "2024", waitedList := [exOpenJob 8],
    specificIds := [], pages := [], env := mkEnv [], now := "2025",
    runDate := "2025-06", sessionCookies := [], jobsFileStart := [] }

/-- A job created exactly at the stored watermark. -/
def c3xJob : JobData :=
  { job_id := 10410427, job_name := "at watermark",
    created_at := "2024-01-01T00:00:00", apply_start := none }

def c3xInp : RunInput :=
  { cfg := mkCfg "2024-01-01T00:00:00", waitedList := [],
    specificIds := [], pages := [{ status := 200, results := [c3xJob] }],
    env := { fetch := fun _ => some { apply_type := some "external", document_type_ids := [] },
             postStatus := fun _ => 200 },
    now := "2025", runDate := "2025-06", sessionCookies := [], jobsFileStart := [] }

/-- A job strictly older than the watermark `"2024-01-01T00:00:00"`. -/
def c3wOld : JobData :=
  { job_id := 10410427, job_name := "old",
    created_at := "2023-12-31T23:59:59", apply_start := none }

def c4xInp : RunInput :=
  { cfg := mkCfg "2024", waitedList := [exOpenJob 2],
    specificIds := [3], pages := [], env := mkEnv [2], now := "2025",
    runDate := "2025-06", sessionCookies := [], jobsFileStart := [] }

def c5wEnv : Env :=
  { fetch := fun _ => some { apply_type := some handshakeType, document_type_ids := [5] },
    postStatus := fun _ => 200 }

def c6xInp : RunInput :=
  { cfg := mkCfg "2024", waitedList := [exFutureJob, exFutureJob],
    specificIds := [], pages := [], env := mkEnv [], now := "2025",
    runDate := "2025-06", sessionCookies := [], jobsFileStart := [] }

def c6wInp : RunInput :=
  { cfg := mkCfg "2024", waitedList := [exFutureJob],
    specificIds := [], pages := [], env := mkEnv [], now := "2025",
    runDate := "2025-06", sessionCookies := [], jobsFileStart := [] }

/-- A job with a future window whose application method is external. -/
def c7xEnv : Env :=
  { fetch := fun _ => some { apply_type := some "external", document_type_ids := [] },
    postStatus := fun _ => 200 }

def c7wInp : RunInput :=
  { cfg := mkCfg "2024", waitedList := [exFutureJob],
    specificIds := [], pages := [], env := mkEnv [], now := "2025",
    runDate := "2025-06", sessionCookies := [], jobsFileStart := [] }

/-- A document whose only match carries a leading zero. -/
def c8xDoc : HtmlDoc :=
  { text := "job-search/00000001".data, region := none, linkHrefs := [], parseFails := false }

/-- A document with an ASCII-digit token and an Arabic-Indic-digit token
(value 1): the set is sorted by code point but converted by digit value. -/
def c8uDoc : HtmlDoc :=
  { text := "job-search/99999999 job-search/٠٠٠٠٠٠٠١".data, region := none,
    linkHrefs := [], parseFails := false }

/-- A document with an ASCII-zero token and an Arabic-Indic-zero token
that parse to the same integer. -/
def c8vDoc : HtmlDoc :=
  { text := "job-search/00000001 job-search/٠٠٠٠٠٠٠١".data, region := none,
    linkHrefs := [], parseFails := false }

def c8wDoc : HtmlDoc :=
  { text := "job-search/10410427 and job-search/10410399".data, region := none,
    linkHrefs := [], parseFails := false }

/-- A document whose Jobs List region holds one identifier while a link
elsewhere in the document holds another. -/
def c9xDoc : HtmlDoc :=
  { text := "irrelevant".data, region := some "job-search/11111111".data,
    linkHrefs := ["foo/job-search/22222222?page=1".data], parseFails := false }

def c9wDoc : HtmlDoc :=
  { text := "job-search/33333333".data, region := some "job-search/11111111".data,
    linkHrefs := ["foo/job-search/22222222?page=1".data], parseFails := false }

/-- A bootstrap page that does not contain the csrf meta marker. -/
def c10wPage : List Char :=
  "this bootstrap page has no token marker anywhere in its body at all".data

/-! ## Lemmas -/

theorem csrfMarker_length : csrfMarker.length = 33 := by decide

theorem replayDeferred_cons (env : Env) (now : String) (ds : DocumentSet)
    (jd : JobData) (rest : List JobData) (acc : RunAcc) :
    replayDeferred env now ds (jd :: rest) acc =
      match stepJob acc jd (Job.apply env now ds jd) with
      | .cont a2 => replayDeferred env now ds rest a2
      | .halt a2 => a2 := rfl

theorem processSpecific_cons (env : Env) (now : String) (ds : DocumentSet)
    (createdAt : String) (i : Nat) (rest : List Nat) (acc : RunAcc) :
    processSpecific env now ds createdAt (i :: rest) acc =
      match stepJob { acc with jobsChecked := acc.jobsChecked + 1 }
          (mkSpecificJobData createdAt i)
          (Job.apply env now ds (mkSpecificJobData createdAt i)) with
      | .cont a2 => processSpecific env now ds createdAt rest a2
      | .halt a2 => a2 := rfl

theorem processPage_cons (cfg : Configs) (env : Env) (now : String)
    (jd : JobData) (rest : List JobData) (acc : RunAcc) :
    processPage cfg env now (jd :: rest) acc =
      if keywordSkip cfg.job_keywords cfg.skip_keywords jd.job_name then
        processPage cfg env now rest { acc with jobsChecked := acc.jobsChecked + 1 }
      else if pyStrLt jd.created_at cfg.date then
        ({ acc with jobsChecked := acc.jobsChecked + 1 }, true)
      else
        match stepJob { acc with jobsChecked := acc.jobsChecked + 1 } jd
            (Job.apply env now cfg.documents jd) with
        | .cont a2 => processPage cfg env now rest a2
        | .halt a2 => (a2, false) := rfl

theorem stepJob_out_evaluated (acc : RunAcc) (jd : JobData) (r : ApplyResult) :
    ((stepJob acc jd r).out).evaluated = acc.evaluated ++ [jd.job_id] := by
  unfold stepJob
  by_cases h0 : r.code = 0
  · simp [h0, StepOut.out]
  · by_cases h2 : r.code = 2
    · simp [h0, h2, StepOut.out]
    · by_cases h1 : r.code = 1
      · simp [h0, h2, h1, StepOut.out]
      · simp [h0, h2, h1, StepOut.out]

theorem collectDocuments_none_of_bad (ds : DocumentSet) (l : List Nat) (bad : Nat)
    (hmem : bad ∈ l)
    (hbad : ¬(bad = RESUME_TYPE_ID ∨ bad = COVER_TYPE_ID ∨ bad = TRANSCRIPT_TYPE_ID ∨
        bad = OTHER_DOCUMENT_TYPE_ID) ∨ ds.get bad = none ∨ ds.get bad = some 0) :
    collectDocuments ds l = none := by
  induction l with
  | nil => cases hmem
  | cons d rest ih =>
    rcases List.mem_cons.mp hmem with h | h
    · subst h
      unfold collectDocuments
      rcases hbad with hb | hb | hb
      · rw [if_neg hb]
      · split
        · rw [hb]
        · rfl
      · split
        · rw [hb]
          simp
        · rfl
    · unfold collectDocuments
      split
      · cases hds : ds.get d with
        | none => rfl
        | some v =>
          by_cases hv : v ≠ 0
          · simp [hv, ih h]
          · simp [hv]
      · rfl

/-! ## Claim theorems -/

/-- C10: `get_csrf_token` is total over the page text: for every page it
returns at most `LEN_CSRF = 88` characters, and when the csrf meta marker
is absent (Python's `find` returns `-1`) it returns the 88-character
slice starting at character offset `-1 + 33 = 32` rather than failing. -/
theorem c10_csrf_token_total (text : List Char) :
    (get_csrf_token text).length ≤ LEN_CSRF ∧
      (findSub csrfMarker text = none →
        get_csrf_token text = (text.drop 32).take LEN_CSRF) := by
  constructor
  · exact List.length_take_le _ _
  · intro h
    unfold get_csrf_token
    rw [h]
    rfl

theorem c10_witness :
    (get_csrf_token c10wPage).length ≤ LEN_CSRF ∧
      get_csrf_token c10wPage = (c10wPage.drop 32).take LEN_CSRF :=
  ⟨(c10_csrf_token_total c10wPage).1, (c10_csrf_token_total c10wPage).2 (by decide)⟩

/-- C5: an in-platform job with an open window whose required document
categories contain an unrecognized category (not 1, 2, 3 or 5) or a
category whose configured document id is missing (or falsy) yields
return code 4 — Skipped(documents-missing) — and no submission POST. -/
theorem c5_documents_missing (env : Env) (now : String) (ds : DocumentSet)
    (jd : JobData) (det : JobDetails) (bad : Nat)
    (hf : env.fetch jd.job_id = some det)
    (ht : det.apply_type = some handshakeType)
    (ho : startBlocks jd.apply_start now = false)
    (hmem : bad ∈ det.document_type_ids)
    (hbad : ¬(bad = RESUME_TYPE_ID ∨ bad = COVER_TYPE_ID ∨ bad = TRANSCRIPT_TYPE_ID ∨
        bad = OTHER_DOCUMENT_TYPE_ID) ∨ ds.get bad = none ∨ ds.get bad = some 0) :
    Job.apply env now ds jd = ⟨4, false⟩ := by
  unfold Job.apply
  simp only [hf]
  simp [ht, ho, collectDocuments_none_of_bad ds det.document_type_ids bad hmem hbad]

theorem c5_witness :
    Job.apply c5wEnv "2025" exDocSet (exOpenJob 3) = ⟨4, false⟩ :=
  c5_documents_missing c5wEnv "2025" exDocSet (exOpenJob 3)
    { apply_type := some handshakeType, document_type_ids := [5] } 5
    (by decide) (by decide) (by decide) (by decide) (by decide)

/-- C1 (amended): on a run whose `cookie_error` flag is set, the config
is persisted with validity false, the cookie jar preserved and the
watermark unchanged, but the deferred-jobs file is NOT written: the
deferred set collected during the run is discarded (wait.json is written
only in the no-error branch, src/handshake.py lines 644-647). -/
theorem c1_failure_persistence (inp : RunInput)
    (h : (runCore inp).cookieError = true) :
    (finalizeRun inp (runCore inp)).confValid = false ∧
      (finalizeRun inp (runCore inp)).waitFileWritten = none ∧
      (finalizeRun inp (runCore inp)).confCookies = inp.sessionCookies ∧
      (finalizeRun inp (runCore inp)).confDate = inp.cfg.date := by
  unfold finalizeRun
  rw [h]
  exact ⟨rfl, rfl, rfl, rfl⟩

theorem c1_witness :
    (finalizeRun c1wInp (runCore c1wInp)).confValid = false ∧
      (finalizeRun c1wInp (runCore c1wInp)).waitFileWritten = none ∧
      (finalizeRun c1wInp (runCore c1wInp)).confCookies = c1wInp.sessionCookies ∧
      (finalizeRun c1wInp (runCore c1wInp)).confDate = c1wInp.cfg.date :=
  c1_failure_persistence c1wInp (by decide)

/-- C1 counterexample: in this run the first waited job is deferred into
the collected set and the second one fails submission with status 500;
credentials are marked invalid and cookies preserved, but contrary to the
claim the deferred-jobs file is not persisted (`waitFileWritten = none`)
even though the collected deferred set is nonempty. -/
theorem c1_counterexample :
    (runMain c1xInp).map
        (fun o => (o.acc.waitList, o.confValid, o.confCookies, o.waitFileWritten)) =
      some ([exFutureJob], false, [("sid", "abc")], none) := by decide

/-- C4 (amended): a non-2xx submission response halts the phase it occurs
in immediately — the deferred replay, the explicit-identifier loop and the
pagination inner loop each break at once, evaluating no later job of that
phase — and the pagination while-loop never runs once `cookie_error` is
set.  (The halt is not global: an explicit identifier list is still
processed after a session failure in the deferred replay, see the
counterexample.) -/
theorem c4_halt_is_phase_local (cfg : Configs) (env : Env) (now createdAt : String) :
    (∀ (jd : JobData), Job.apply env now cfg.documents jd = ⟨1, true⟩ →
      ∀ (post : List JobData) (acc : RunAcc),
        replayDeferred env now cfg.documents (jd :: post) acc =
          { acc with evaluated := acc.evaluated ++ [jd.job_id],
                     postedIds := acc.postedIds ++ [jd.job_id],
                     cookieError := true }) ∧
    (∀ (i : Nat), Job.apply env now cfg.documents (mkSpecificJobData createdAt i) = ⟨1, true⟩ →
      ∀ (rest : List Nat) (acc : RunAcc),
        processSpecific env now cfg.documents createdAt (i :: rest) acc =
          { acc with jobsChecked := acc.jobsChecked + 1,
                     evaluated := acc.evaluated ++ [i],
                     postedIds := acc.postedIds ++ [i],
                     cookieError := true }) ∧
    (∀ (jd : JobData),
      keywordSkip cfg.job_keywords cfg.skip_keywords jd.job_name = false →
      pyStrLt jd.created_at cfg.date = false →
      Job.apply env now cfg.documents jd = ⟨1, true⟩ →
      ∀ (rest : List JobData) (acc : RunAcc),
        processPage cfg env now (jd :: rest) acc =
          ({ acc with jobsChecked := acc.jobsChecked + 1,
                      evaluated := acc.evaluated ++ [jd.job_id],
                      postedIds := acc.postedIds ++ [jd.job_id],
                      cookieError := true }, false)) ∧
    (∀ (pages : List Page) (acc : RunAcc), acc.cookieError = true →
      processPages cfg env now pages acc = acc) := by
  refine ⟨?_, ?_, ?_, ?_⟩
  · intro jd h post acc
    unfold replayDeferred
    rw [h]
    rfl
  · intro i h rest acc
    unfold processSpecific
    simp only [h]
    rfl
  · intro jd hk hd h rest acc
    unfold processPage
    rw [hk, hd, h]
    rfl
  · intro pages acc h
    cases pages with
    | nil => rfl
    | cons pg rest =>
      unfold processPages
      rw [h]
      rfl

theorem c4_witness :
    replayDeferred (mkEnv [5]) "2025" (mkCfg "2024").documents [exOpenJob 5] RunAcc.initial =
        { RunAcc.initial with evaluated := [5], postedIds := [5], cookieError := true } ∧
      processSpecific (mkEnv [5]) "2025" (mkCfg "2024").documents "2025-06" [5] RunAcc.initial =
        { RunAcc.initial with jobsChecked := 1, evaluated := [5], postedIds := [5],
                              cookieError := true } ∧
      processPage (mkCfg "2024") (mkEnv [5]) "2025" [exOpenJob 5] RunAcc.initial =
        ({ RunAcc.initial with jobsChecked := 1, evaluated := [5], postedIds := [5],
                               cookieError := true }, false) ∧
      processPages (mkCfg "2024") (mkEnv [5]) "2025" [{ status := 200, results := [] }]
          { RunAcc.initial with cookieError := true } =
        { RunAcc.initial with cookieError := true } :=
  ⟨(c4_halt_is_phase_local (mkCfg "2024") (mkEnv [5]) "2025" "2025-06").1
      (exOpenJob 5) (by decide) [] RunAcc.initial,
    (c4_halt_is_phase_local (mkCfg "2024") (mkEnv [5]) "2025" "2025-06").2.1
      5 (by decide) [] RunAcc.initial,
    (c4_halt_is_phase_local (mkCfg "2024") (mkEnv [5]) "2025" "2025-06").2.2.1
      (exOpenJob 5) (by decide) (by decide) (by decide) [] RunAcc.initial,
    (c4_halt_is_phase_local (mkCfg "2024") (mkEnv [5]) "2025" "2025-06").2.2.2
      [{ status := 200, results := [] }] { RunAcc.initial with cookieError := true } rfl⟩

/-- C4 counterexample: the waited job 2 fails submission with status 500
(`cookie_error` set), yet the explicit-identifier phase still evaluates
and even successfully submits job 3 afterwards — the halt is not
unconditional across phases (src/handshake.py line 511 checks only
`specific_job_ids`, not `cookie_error`). -/
theorem c4_counterexample :
    (runMain c4xInp).map
        (fun o => (o.acc.evaluated, o.acc.postedIds, o.acc.appliedIds, o.confValid)) =
      some ([2, 3], [2, 3], [3], false) := by decide

/-- C2 (amended): the code has no double-submission guard: the Decision
Engine never reads the application log.  Two runs differing only in the
pre-existing jobs.csv contents make identical decisions; the log is
append-only; and any job that reaches the submission step has the POST
issued regardless of whether its identifier already has a log entry, so a
re-presented already-applied identifier is submitted again, not skipped. -/
theorem c2_log_never_consulted :
    (∀ (inp : RunInput) (l : List Nat),
        runCore { inp with jobsFileStart := l } = runCore inp) ∧
      (∀ (inp : RunInput) (l : List Nat),
        (finalizeRun { inp with jobsFileStart := l }
            (runCore { inp with jobsFileStart := l })).jobsFile =
          l ++ (runCore inp).appliedIds) ∧
      (∀ (env : Env) (now : String) (ds : DocumentSet) (jd : JobData)
          (det : JobDetails) (docs : List Nat),
        env.fetch jd.job_id = some det →
        det.apply_type = some handshakeType →
        startBlocks jd.apply_start now = false →
        collectDocuments ds det.document_type_ids = some docs →
        (Job.apply env now ds jd).posted = true) := by
  refine ⟨fun inp l => rfl, fun inp l => rfl, ?_⟩
  intro env now ds jd det docs hf ht ho hc
  unfold Job.apply
  simp only [hf]
  simp only [ht, ho, hc]
  by_cases hp : env.postStatus jd.job_id = 200 <;> simp [hp]

theorem c2_witness :
    runCore { c2wInp with jobsFileStart := [9] } = runCore c2wInp ∧
      (finalizeRun { c2wInp with jobsFileStart := [9] }
          (runCore { c2wInp with jobsFileStart := [9] })).jobsFile =
        [9] ++ (runCore c2wInp).appliedIds ∧
      (Job.apply (mkEnv []) "2025" exDocSet (exOpenJob 8)).posted = true :=
  ⟨c2_log_never_consulted.1 c2wInp [9],
    c2_log_never_consulted.2.1 c2wInp [9],
    c2_log_never_consulted.2.2 (mkEnv []) "2025" exDocSet (exOpenJob 8)
      { apply_type := some handshakeType, document_type_ids := [] } []
      (by decide) (by decide) (by decide) (by decide)⟩

/-- C2 counterexample: identifier 7 already has an entry in the
application log (`jobsFileStart = [7]`), yet re-processing it from the
deferred list issues the submission POST again (`postedIds = [7]`) and
appends a second log entry (`jobsFile = [7, 7]`) — re-processing an
already-applied identifier is not a no-op skip. -/
theorem c2_counterexample :
    (runMain c2xInp).map (fun o => (o.jobsFile, o.acc.postedIds)) =
      some ([7, 7], [7]) := by decide

theorem replayDeferred_evaluated_mono (env : Env) (now : String) (ds : DocumentSet)
    (l : List JobData) : ∀ acc : RunAcc,
    ∃ t, (replayDeferred env now ds l acc).evaluated = acc.evaluated ++ t := by
  induction l with
  | nil => exact fun acc => ⟨[], by simp [replayDeferred]⟩
  | cons jd rest ih =>
    intro acc
    unfold replayDeferred
    cases hs : stepJob acc jd (Job.apply env now ds jd) with
    | cont a2 =>
      obtain ⟨t, htt⟩ := ih a2
      have ha2 : a2.evaluated = acc.evaluated ++ [jd.job_id] := by
        have h0 := stepJob_out_evaluated acc jd (Job.apply env now ds jd)
        rw [hs] at h0
        exact h0
      exact ⟨[jd.job_id] ++ t, by rw [htt, ha2, List.append_assoc]⟩
    | halt a2 =>
      have ha2 : a2.evaluated = acc.evaluated ++ [jd.job_id] := by
        have h0 := stepJob_out_evaluated acc jd (Job.apply env now ds jd)
        rw [hs] at h0
        exact h0
      exact ⟨[jd.job_id], ha2⟩

theorem processSpecific_evaluated_mono (env : Env) (now : String) (ds : DocumentSet)
    (createdAt : String) (l : List Nat) : ∀ acc : RunAcc,
    ∃ t, (processSpecific env now ds createdAt l acc).evaluated = acc.evaluated ++ t := by
  induction l with
  | nil => exact fun acc => ⟨[], by simp [processSpecific]⟩
  | cons i rest ih =>
    intro acc
    rw [processSpecific_cons]
    cases hs : stepJob { acc with jobsChecked := acc.jobsChecked + 1 }
        (mkSpecificJobData createdAt i)
        (Job.apply env now ds (mkSpecificJobData createdAt i)) with
    | cont a2 =>
      obtain ⟨t, htt⟩ := ih a2
      have ha2 : a2.evaluated = acc.evaluated ++ [i] := by
        have h0 := stepJob_out_evaluated { acc with jobsChecked := acc.jobsChecked + 1 }
          (mkSpecificJobData createdAt i) (Job.apply env now ds (mkSpecificJobData createdAt i))
        rw [hs] at h0
        exact h0
      exact ⟨[i] ++ t, by rw [htt, ha2, List.append_assoc]⟩
    | halt a2 =>
      have ha2 : a2.evaluated = acc.evaluated ++ [i] := by
        have h0 := stepJob_out_evaluated { acc with jobsChecked := acc.jobsChecked + 1 }
          (mkSpecificJobData createdAt i) (Job.apply env now ds (mkSpecificJobData createdAt i))
        rw [hs] at h0
        exact h0
      exact ⟨[i], ha2⟩

theorem processPage_evaluated_mono (cfg : Configs) (env : Env) (now : String)
    (l : List JobData) : ∀ acc : RunAcc,
    ∃ t, (processPage cfg env now l acc).1.evaluated = acc.evaluated ++ t := by
  induction l with
  | nil => exact fun acc => ⟨[], by simp [processPage]⟩
  | cons jd rest ih =>
    intro acc
    rw [processPage_cons]
    by_cases hk : keywordSkip cfg.job_keywords cfg.skip_keywords jd.job_name
    · rw [if_pos hk]
      obtain ⟨t, htt⟩ := ih { acc with jobsChecked := acc.jobsChecked + 1 }
      exact ⟨t, htt⟩
    · rw [if_neg hk]
      by_cases hd : pyStrLt jd.created_at cfg.date
      · rw [if_pos hd]
        exact ⟨[], by simp⟩
      · rw [if_neg hd]
        cases hs : stepJob { acc with jobsChecked := acc.jobsChecked + 1 } jd
            (Job.apply env now cfg.documents jd) with
        | cont a2 =>
          obtain ⟨t, htt⟩ := ih a2
          have ha2 : a2.evaluated = acc.evaluated ++ [jd.job_id] := by
            have h0 := stepJob_out_evaluated { acc with jobsChecked := acc.jobsChecked + 1 }
              jd (Job.apply env now cfg.documents jd)
            rw [hs] at h0
            exact h0
          exact ⟨[jd.job_id] ++ t, by rw [htt, ha2, List.append_assoc]⟩
        | halt a2 =>
          have ha2 : a2.evaluated = acc.evaluated ++ [jd.job_id] := by
            have h0 := stepJob_out_evaluated { acc with jobsChecked := acc.jobsChecked + 1 }
              jd (Job.apply env now cfg.documents jd)
            rw [hs] at h0
            exact h0
          exact ⟨[jd.job_id], ha2⟩

theorem processPages_evaluated_mono (cfg : Configs) (env : Env) (now : String)
    (pages : List Page) : ∀ acc : RunAcc,
    ∃ t, (processPages cfg env now pages acc).evaluated = acc.evaluated ++ t := by
  induction pages with
  | nil => exact fun acc => ⟨[], by simp [processPages]⟩
  | cons pg rest ih =>
    intro acc
    unfold processPages
    by_cases hc : acc.cookieError
    · rw [if_pos hc]
      exact ⟨[], by simp⟩
    · rw [if_neg hc]
      by_cases hst : pg.status ≠ 200
      · rw [if_pos hst]
        exact ⟨[], by simp⟩
      · rw [if_neg hst]
        by_cases he : pg.results.isEmpty
        · rw [if_pos he]
          exact ⟨[], by simp⟩
        · rw [if_neg he]
          obtain ⟨t, htt⟩ := processPage_evaluated_mono cfg env now pg.results acc
          by_cases h2 : (processPage cfg env now pg.results acc).2
          · rw [if_pos h2]
            exact ⟨t, htt⟩
          · rw [if_neg h2]
            by_cases h3 : (processPage cfg env now pg.results acc).1.cookieError
            · rw [if_pos h3]
              exact ⟨t, htt⟩
            · rw [if_neg h3]
              obtain ⟨t2, ht2⟩ := ih (processPage cfg env now pg.results acc).1
              exact ⟨t ++ t2, by rw [ht2, htt, List.append_assoc]⟩

/-- C7 (amended): for a job whose detail fetch succeeds with the
in-platform application method and whose apply-open timestamp is in the
future relative to the run's `now`, the outcome is code 2 — Deferred —
with no submission POST; the deferred-replay loop records the job's
snapshot into the collected wait list; and on any run whose wait file
starts with a given job, that job is the first one evaluated, ahead of
any explicit identifier and any fresh listing.  (The unamended claim is
refuted for jobs with a non-in-platform application method, see the
counterexample.) -/
theorem c7_future_window_defers (env : Env) (now : String) (ds : DocumentSet)
    (jd : JobData) (det : JobDetails)
    (hf : env.fetch jd.job_id = some det)
    (ht : det.apply_type = some handshakeType)
    (hs : startBlocks jd.apply_start now = true) :
    Job.apply env now ds jd = ⟨2, false⟩ ∧
      (∀ (rest : List JobData) (acc : RunAcc),
        replayDeferred env now ds (jd :: rest) acc =
          replayDeferred env now ds rest
            { acc with evaluated := acc.evaluated ++ [jd.job_id],
                       waitList := acc.waitList ++ [jd] }) ∧
      (∀ (inp : RunInput) (rest : List JobData),
        inp.waitedList = jd :: rest →
        (runCore inp).evaluated.head? = some jd.job_id) := by
  have happ : Job.apply env now ds jd = ⟨2, false⟩ := by
    unfold Job.apply
    simp only [hf]
    simp [ht, hs]
  refine ⟨happ, ?_, ?_⟩
  · intro rest acc
    rw [replayDeferred_cons, happ]
    rfl
  · intro inp rest hw
    have key : ∀ (env' : Env) (now' : String) (ds' : DocumentSet),
        ∃ t, (replayDeferred env' now' ds' (jd :: rest) RunAcc.initial).evaluated =
          jd.job_id :: t := by
      intro env' now' ds'
      unfold replayDeferred
      cases hstep : stepJob RunAcc.initial jd (Job.apply env' now' ds' jd) with
      | cont a2 =>
        obtain ⟨t, htt⟩ := replayDeferred_evaluated_mono env' now' ds' rest a2
        have ha2 : a2.evaluated = RunAcc.initial.evaluated ++ [jd.job_id] := by
          have h0 := stepJob_out_evaluated RunAcc.initial jd (Job.apply env' now' ds' jd)
          rw [hstep] at h0
          exact h0
        exact ⟨t, by rw [htt, ha2]; rfl⟩
      | halt a2 =>
        have ha2 : a2.evaluated = RunAcc.initial.evaluated ++ [jd.job_id] := by
          have h0 := stepJob_out_evaluated RunAcc.initial jd (Job.apply env' now' ds' jd)
          rw [hstep] at h0
          exact h0
        exact ⟨[], by rw [ha2]; rfl⟩
    unfold runCore
    rw [hw]
    obtain ⟨t, htk⟩ := key inp.env inp.now inp.cfg.documents
    by_cases hsp : inp.specificIds.isEmpty
    · rw [if_pos hsp]
      obtain ⟨t2, ht2⟩ := processPages_evaluated_mono inp.cfg inp.env inp.now inp.pages
        (replayDeferred inp.env inp.now inp.cfg.documents (jd :: rest) RunAcc.initial)
      rw [ht2, htk]
      rfl
    · rw [if_neg hsp]
      obtain ⟨t2, ht2⟩ := processSpecific_evaluated_mono inp.env inp.now inp.cfg.documents
        inp.runDate inp.specificIds
        (replayDeferred inp.env inp.now inp.cfg.documents (jd :: rest) RunAcc.initial)
      rw [ht2, htk]
      rfl

theorem c7_witness :
    Job.apply (mkEnv []) "2025" exDocSet exFutureJob = ⟨2, false⟩ ∧
      replayDeferred (mkEnv []) "2025" exDocSet [exFutureJob] RunAcc.initial =
        replayDeferred (mkEnv []) "2025" exDocSet []
          { RunAcc.initial with evaluated := [1], waitList := [exFutureJob] } ∧
      (runCore c7wInp).evaluated.head? = some 1 :=
  ⟨(c7_future_window_defers (mkEnv []) "2025" exDocSet exFutureJob
      { apply_type := some handshakeType, document_type_ids := [] }
      (by decide) (by decide) (by decide)).1,
    (c7_future_window_defers (mkEnv []) "2025" exDocSet exFutureJob
      { apply_type := some handshakeType, document_type_ids := [] }
      (by decide) (by decide) (by decide)).2.1 [] RunAcc.initial,
    (c7_future_window_defers (mkEnv []) "2025" exDocSet exFutureJob
      { apply_type := some handshakeType, document_type_ids := [] }
      (by decide) (by decide) (by decide)).2.2 c7wInp [] rfl⟩

/-- C7 counterexample: this job's apply-open timestamp is in the future
(`startBlocks` holds), yet because its application method is `external`
the outcome is code 3 — Skipped(external) — not Deferred, and nothing is
recorded in the deferred set; the apply-type test of line 429 precedes
the window test of line 431. -/
theorem c7_counterexample :
    startBlocks exFutureJob.apply_start "2025" = true ∧
      Job.apply c7xEnv "2025" exDocSet exFutureJob = ⟨3, false⟩ := by decide

theorem stepJob_out_waitSub (acc : RunAcc) (jd : JobData) (r : ApplyResult)
    (h : (acc.waitList.map JobData.job_id).Sublist acc.evaluated) :
    (((stepJob acc jd r).out).waitList.map JobData.job_id).Sublist
      ((stepJob acc jd r).out).evaluated := by
  have hgrow : (acc.waitList.map JobData.job_id).Sublist (acc.evaluated ++ [jd.job_id]) :=
    h.trans (List.sublist_append_left _ _)
  unfold stepJob
  by_cases h0 : r.code = 0
  · simpa [h0, StepOut.out] using hgrow
  · by_cases h2 : r.code = 2
    · simp only [h0, h2, StepOut.out]
      simpa [h0, h2, StepOut.out] using h.append (List.Sublist.refl [jd.job_id])
    · by_cases h1 : r.code = 1
      · simpa [h0, h2, h1, StepOut.out] using hgrow
      · simpa [h0, h2, h1, StepOut.out] using hgrow

theorem replayDeferred_waitSub (env : Env) (now : String) (ds : DocumentSet)
    (l : List JobData) : ∀ acc : RunAcc,
    (acc.waitList.map JobData.job_id).Sublist acc.evaluated →
    ((replayDeferred env now ds l acc).waitList.map JobData.job_id).Sublist
      (replayDeferred env now ds l acc).evaluated := by
  induction l with
  | nil => intro acc h; simpa [replayDeferred] using h
  | cons jd rest ih =>
    intro acc h
    rw [replayDeferred_cons]
    cases hs : stepJob acc jd (Job.apply env now ds jd) with
    | cont a2 =>
      have h2 := stepJob_out_waitSub acc jd (Job.apply env now ds jd) h
      rw [hs] at h2
      exact ih a2 h2
    | halt a2 =>
      have h2 := stepJob_out_waitSub acc jd (Job.apply env now ds jd) h
      rw [hs] at h2
      exact h2

theorem processSpecific_waitSub (env : Env) (now : String) (ds : DocumentSet)
    (createdAt : String) (l : List Nat) : ∀ acc : RunAcc,
    (acc.waitList.map JobData.job_id).Sublist acc.evaluated →
    ((processSpecific env now ds createdAt l acc).waitList.map JobData.job_id).Sublist
      (processSpecific env now ds createdAt l acc).evaluated := by
  induction l with
  | nil => intro acc h; simpa [processSpecific] using h
  | cons i rest ih =>
    intro acc h
    rw [processSpecific_cons]
    have hb : ({ acc with jobsChecked := acc.jobsChecked + 1 } :
        RunAcc).waitList.map JobData.job_id |>.Sublist
        ({ acc with jobsChecked := acc.jobsChecked + 1 } : RunAcc).evaluated := h
    cases hs : stepJob { acc with jobsChecked := acc.jobsChecked + 1 }
        (mkSpecificJobData createdAt i)
        (Job.apply env now ds (mkSpecificJobData createdAt i)) with
    | cont a2 =>
      have h2 := stepJob_out_waitSub { acc with jobsChecked := acc.jobsChecked + 1 }
        (mkSpecificJobData createdAt i)
        (Job.apply env now ds (mkSpecificJobData createdAt i)) hb
      rw [hs] at h2
      exact ih a2 h2
    | halt a2 =>
      have h2 := stepJob_out_waitSub { acc with jobsChecked := acc.jobsChecked + 1 }
        (mkSpecificJobData createdAt i)
        (Job.apply env now ds (mkSpecificJobData createdAt i)) hb
      rw [hs] at h2
      exact h2

theorem processPage_waitSub (cfg : Configs) (env : Env) (now : String)
    (l : List JobData) : ∀ acc : RunAcc,
    (acc.waitList.map JobData.job_id).Sublist acc.evaluated →
    ((processPage cfg env now l acc).1.waitList.map JobData.job_id).Sublist
      (processPage cfg env now l acc).1.evaluated := by
  induction l with
  | nil => intro acc h; simpa [processPage] using h
  | cons jd rest ih =>
    intro acc h
    rw [processPage_cons]
    have hb : ({ acc with jobsChecked := acc.jobsChecked + 1 } :
        RunAcc).waitList.map JobData.job_id |>.Sublist
        ({ acc with jobsChecked := acc.jobsChecked + 1 } : RunAcc).evaluated := h
    by_cases hk : keywordSkip cfg.job_keywords cfg.skip_keywords jd.job_name
    · rw [if_pos hk]
      exact ih { acc with jobsChecked := acc.jobsChecked + 1 } hb
    · rw [if_neg hk]
      by_cases hd : pyStrLt jd.created_at cfg.date
      · rw [if_pos hd]
        exact hb
      · rw [if_neg hd]
        cases hs : stepJob { acc with jobsChecked := acc.jobsChecked + 1 } jd
            (Job.apply env now cfg.documents jd) with
        | cont a2 =>
          have h2 := stepJob_out_waitSub { acc with jobsChecked := acc.jobsChecked + 1 } jd
            (Job.apply env now cfg.documents jd) hb
          rw [hs] at h2
          exact ih a2 h2
        | halt a2 =>
          have h2 := stepJob_out_waitSub { acc with jobsChecked := acc.jobsChecked + 1 } jd
            (Job.apply env now cfg.documents jd) hb
          rw [hs] at h2
          exact h2

theorem processPages_waitSub (cfg : Configs) (env : Env) (now : String)
    (pages : List Page) : ∀ acc : RunAcc,
    (acc.waitList.map JobData.job_id).Sublist acc.evaluated →
    ((processPages cfg env now pages acc).waitList.map JobData.job_id).Sublist
      (processPages cfg env now pages acc).evaluated := by
  induction pages with
  | nil => intro acc h; simpa [processPages] using h
  | cons pg rest ih =>
    intro acc h
    unfold processPages
    by_cases hc : acc.cookieError
    · rw [if_pos hc]
      exact h
    · rw [if_neg hc]
      by_cases hst : pg.status ≠ 200
      · rw [if_pos hst]
        exact h
      · rw [if_neg hst]
        by_cases he : pg.results.isEmpty
        · rw [if_pos he]
          exact h
        · rw [if_neg he]
          have hpp := processPage_waitSub cfg env now pg.results acc h
          by_cases h2 : (processPage cfg env now pg.results acc).2
          · rw [if_pos h2]
            exact hpp
          · rw [if_neg h2]
            by_cases h3 : (processPage cfg env now pg.results acc).1.cookieError
            · rw [if_pos h3]
              exact hpp
            · rw [if_neg h3]
              exact ih (processPage cfg env now pg.results acc).1 hpp

theorem runCore_waitSub (inp : RunInput) :
    ((runCore inp).waitList.map JobData.job_id).Sublist (runCore inp).evaluated := by
  unfold runCore
  have h0 : (RunAcc.initial.waitList.map JobData.job_id).Sublist RunAcc.initial.evaluated := by
    simp [RunAcc.initial]
  have h1 := replayDeferred_waitSub inp.env inp.now inp.cfg.documents inp.waitedList
    RunAcc.initial h0
  by_cases hsp : inp.specificIds.isEmpty
  · rw [if_pos hsp]
    exact processPages_waitSub inp.cfg inp.env inp.now inp.pages _ h1
  · rw [if_neg hsp]
    exact processSpecific_waitSub inp.env inp.now inp.cfg.documents inp.runDate
      inp.specificIds _ h1

/-- C6 (amended): each deferred evaluation appends exactly one snapshot,
so the identifiers of any persisted deferred-jobs file form a sublist of
the run's evaluation sequence; in particular the file is duplicate-free
whenever no identifier was evaluated twice during the run.  The code
performs no deduplication, so duplicates in the replayed deferred list or
the explicit identifier list carry through to the file (see the
counterexample). -/
theorem c6_wait_file_ids_sublist (inp : RunInput) (wl : List JobData)
    (hw : (finalizeRun inp (runCore inp)).waitFileWritten = some wl) :
    (wl.map JobData.job_id).Sublist (runCore inp).evaluated ∧
      ((runCore inp).evaluated.Nodup → (wl.map JobData.job_id).Nodup) := by
  have hw' : (if (runCore inp).cookieError then none
      else some (runCore inp).waitList) = some wl := hw
  have hwl : wl = (runCore inp).waitList := by
    by_cases hc : (runCore inp).cookieError
    · rw [if_pos hc] at hw'
      cases hw'
    · rw [if_neg hc] at hw'
      exact (Option.some.injEq _ _ ▸ hw').symm
  rw [hwl]
  exact ⟨runCore_waitSub inp, fun hnd => List.Nodup.sublist (runCore_waitSub inp) hnd⟩

theorem c6_witness :
    ([exFutureJob].map JobData.job_id).Sublist (runCore c6wInp).evaluated ∧
      ([exFutureJob].map JobData.job_id).Nodup :=
  ⟨(c6_wait_file_ids_sublist c6wInp [exFutureJob] (by decide)).1,
    (c6_wait_file_ids_sublist c6wInp [exFutureJob] (by decide)).2 (by decide)⟩

/-- C6 counterexample: the stale deferred list contains the same job
snapshot twice; both replayed evaluations defer again, and the persisted
deferred-jobs file contains the identifier 1 twice — the persisted
deferred set is not duplicate-free under duplicated input. -/
theorem c6_counterexample :
    (runMain c6xInp).map (fun o => o.waitFileWritten.map (List.map JobData.job_id)) =
        some (some [1, 1]) ∧
      ¬ ([1, 1] : List Nat).Nodup := by decide

theorem stepJob_halt_code (acc : RunAcc) (jd : JobData) (r : ApplyResult) (a : RunAcc)
    (h : stepJob acc jd r = .halt a) : r.code = 1 := by
  unfold stepJob at h
  by_cases h0 : r.code = 0
  · simp [h0] at h
  · by_cases h2 : r.code = 2
    · simp [h0, h2] at h
    · by_cases h1 : r.code = 1
      · exact h1
      · simp [h0, h2, h1] at h

theorem processPage_stops_at_old (cfg : Configs) (env : Env) (now : String)
    (old : JobData) (post : List JobData)
    (hk : keywordSkip cfg.job_keywords cfg.skip_keywords old.job_name = false)
    (hd : pyStrLt old.created_at cfg.date = true) :
    ∀ (pre : List JobData) (acc : RunAcc),
      (∀ x ∈ pre, keywordSkip cfg.job_keywords cfg.skip_keywords x.job_name = true ∨
        (pyStrLt x.created_at cfg.date = false ∧
          (Job.apply env now cfg.documents x).code ≠ 1)) →
      processPage cfg env now (pre ++ old :: post) acc =
        ({ (processPage cfg env now pre acc).1 with
            jobsChecked := (processPage cfg env now pre acc).1.jobsChecked + 1 }, true) := by
  intro pre
  induction pre with
  | nil =>
    intro acc _
    rw [List.nil_append, processPage_cons]
    simp [hk, hd, processPage]
  | cons x pre' ih =>
    intro acc hpre
    have hx := hpre x (List.mem_cons_self x pre')
    have hpre' : ∀ y ∈ pre',
        keywordSkip cfg.job_keywords cfg.skip_keywords y.job_name = true ∨
          (pyStrLt y.created_at cfg.date = false ∧
            (Job.apply env now cfg.documents y).code ≠ 1) :=
      fun y hy => hpre y (List.mem_cons_of_mem x hy)
    rw [List.cons_append, processPage_cons cfg env now x (pre' ++ old :: post) acc,
      processPage_cons cfg env now x pre' acc]
    by_cases hxk : keywordSkip cfg.job_keywords cfg.skip_keywords x.job_name
    · rw [if_pos hxk, if_pos hxk]
      exact ih { acc with jobsChecked := acc.jobsChecked + 1 } hpre'
    · rw [if_neg hxk, if_neg hxk]
      rcases hx with hx | ⟨hxd, hxc⟩
      · exact absurd hx hxk
      · rw [hxd]
        simp only [Bool.false_eq_true, if_false]
        cases hs : stepJob { acc with jobsChecked := acc.jobsChecked + 1 } x
            (Job.apply env now cfg.documents x) with
        | cont a2 => exact ih a2 hpre'
        | halt a2 => exact absurd (stepJob_halt_code _ _ _ _ hs) hxc

/-- C3 (amended): the watermark stop is strict.  During pagination, as
soon as a non-keyword-filtered job whose creation timestamp is strictly
before the stored watermark is reached, that job and every later job on
the page are not evaluated and no further page is fetched: the whole
result of the pagination phase is determined by the jobs before it on
that page (the right-hand side below mentions only `pre`).  A job whose
creation timestamp is exactly equal to the watermark does NOT stop
processing and IS evaluated — see the counterexample — because line 623
tests `configs["date"] > job.date`. -/
theorem c3_strict_watermark_stop (cfg : Configs) (env : Env) (now : String)
    (pre post : List JobData) (old : JobData) (rest : List Page) (acc : RunAcc)
    (hacc : acc.cookieError = false)
    (hk : keywordSkip cfg.job_keywords cfg.skip_keywords old.job_name = false)
    (hd : pyStrLt old.created_at cfg.date = true)
    (hpre : ∀ x ∈ pre, keywordSkip cfg.job_keywords cfg.skip_keywords x.job_name = true ∨
      (pyStrLt x.created_at cfg.date = false ∧
        (Job.apply env now cfg.documents x).code ≠ 1)) :
    processPages cfg env now ({ status := 200, results := pre ++ old :: post } :: rest) acc =
      { (processPage cfg env now pre acc).1 with
          jobsChecked := (processPage cfg env now pre acc).1.jobsChecked + 1 } := by
  have hpp := processPage_stops_at_old cfg env now old post hk hd pre acc hpre
  have hne : (pre ++ old :: post).isEmpty = false := by cases pre <;> rfl
  unfold processPages
  simp [hacc, hne, hpp]

theorem c3_witness :
    processPages (mkCfg "2024-01-01T00:00:00") (mkEnv []) "2025"
        [{ status := 200, results := [c3wOld, exOpenJob 9] },
          { status := 200, results := [] }] RunAcc.initial =
      { RunAcc.initial with jobsChecked := 1 } :=
  c3_strict_watermark_stop (mkCfg "2024-01-01T00:00:00") (mkEnv []) "2025"
    [] [exOpenJob 9] c3wOld [{ status := 200, results := [] }] RunAcc.initial
    rfl (by decide) (by decide) (by simp)

/-- C3 counterexample: job 10410427 is created exactly AT the stored
watermark `2024-01-01T00:00:00`; contrary to the claim ("at or before
... is not evaluated"), the job IS evaluated (it appears in the
evaluation sequence), because the code's comparison is strict. -/
theorem c3_counterexample :
    (runMain c3xInp).map (fun o => o.acc.evaluated) = some [10410427] := by decide

/-- C9 (amended): locating the results region shortcuts only the
document-wide regex sweep, and only when the region yields at least one
identifier; the anchor-href pass (Method 3) always runs over the whole
document, so link-carried identifiers from outside the region are always
included; and when the located region yields no identifier, the
document-wide sweep still runs. -/
theorem c9_region_shortcut_scope (doc : HtmlDoc) (r : List Char)
    (hp : doc.parseFails = false) (hr : doc.region = some r) :
    (scanMatches r ≠ [] →
      collectIds doc = scanMatches r ++ linkIds doc) ∧
      (scanMatches r = [] →
        collectIds doc = scanMatches doc.text ++ linkIds doc) := by
  have hreg : regionIds doc = scanMatches r := by
    unfold regionIds
    rw [hr]
  constructor
  · intro hne
    unfold collectIds fullIds
    rw [hp, hreg, if_neg hne]
    simp
  · intro he
    unfold collectIds fullIds
    rw [hp, hreg, he, if_pos rfl]
    simp

theorem c9_witness :
    collectIds c9wDoc = "11111111".data :: linkIds c9wDoc ∧
      collectIds { c9wDoc with region := some ("no ids here").data } =
        "33333333".data :: linkIds { c9wDoc with region := some ("no ids here").data } :=
  ⟨(c9_region_shortcut_scope c9wDoc ("job-search/11111111").data rfl rfl).1 (by decide),
    (c9_region_shortcut_scope { c9wDoc with region := some ("no ids here").data }
      ("no ids here").data rfl rfl).2 (by decide)⟩

/-- C9 counterexample: the Jobs List region is located and contains only
identifier 11111111, yet the extractor's output also contains 22222222,
which occurs only in an anchor href outside the region — the region does
not restrict the output to identifiers found inside it, because the
always-run link pass (Method 3, lines 42-48) searches the whole
document. -/
theorem c9_counterexample :
    extract_job_ids_from_html c9xDoc = [11111111, 22222222] ∧
      (regionIds c9xDoc).map digitsToNat = [11111111] := by decide

theorem lexLt_irrefl : ∀ l : List Char, lexLt l l = false := by
  intro l
  induction l with
  | nil => rfl
  | cons a as ih => simp [lexLt, charLtB, ih]

theorem lexLt_trans : ∀ a b c : List Char,
    lexLt a b = true → lexLt b c = true → lexLt a c = true := by
  intro a
  induction a with
  | nil =>
    intro b c hab hbc
    cases b with
    | nil => simp [lexLt] at hab
    | cons y ys =>
      cases c with
      | nil => simp [lexLt] at hbc
      | cons z zs => simp [lexLt]
  | cons x xs ih =>
    intro b c hab hbc
    cases b with
    | nil => simp [lexLt] at hab
    | cons y ys =>
      cases c with
      | nil => simp [lexLt] at hbc
      | cons z zs =>
        simp only [lexLt, charLtB] at hab hbc ⊢
        by_cases h1 : x.toNat < y.toNat
        · by_cases h2 : y.toNat < z.toNat
          · have : x.toNat < z.toNat := Nat.lt_trans h1 h2
            simp [this]
          · by_cases h2' : z.toNat < y.toNat
            · simp [h2, h2'] at hbc
            · have hyz : y.toNat = z.toNat := by omega
              have : x.toNat < z.toNat := by omega
              simp [this]
        · by_cases h1' : y.toNat < x.toNat
          · simp [h1, h1'] at hab
          · have hxy : x.toNat = y.toNat := by omega
            simp only [h1, h1', decide_False, Bool.false_eq_true, if_false] at hab
            by_cases h2 : y.toNat < z.toNat
            · have : x.toNat < z.toNat := by omega
              simp [this]
            · by_cases h2' : z.toNat < y.toNat
              · simp [h2, h2'] at hbc
              · simp only [h2, h2', decide_False, Bool.false_eq_true, if_false] at hbc
                have hx : ¬ x.toNat < z.toNat := by omega
                have hz : ¬ z.toNat < x.toNat := by omega
                simp only [hx, hz, decide_False, Bool.false_eq_true, if_false]
                exact ih ys zs hab hbc

theorem lexLt_conn : ∀ a b : List Char,
    lexLt a b = false → lexLt b a = false → a = b := by
  intro a
  induction a with
  | nil =>
    intro b hab _
    cases b with
    | nil => rfl
    | cons y ys => simp [lexLt] at hab
  | cons x xs ih =>
    intro b hab hba
    cases b with
    | nil => simp [lexLt] at hba
    | cons y ys =>
      simp only [lexLt, charLtB] at hab hba
      by_cases h1 : x.toNat < y.toNat
      · simp [h1] at hab
      · by_cases h1' : y.toNat < x.toNat
        · simp [h1, h1'] at hba
        · have hxy : x = y := by
            have hval : x.toNat = y.toNat := by omega
            exact Char.ext (UInt32.toNat.inj hval)
          simp only [h1, h1', decide_False, Bool.false_eq_true, if_false] at hab hba
          rw [hxy, ih ys hab hba]

theorem lexLt_asymm : ∀ a b : List Char, lexLt a b = true → lexLt b a = false := by
  intro a b hab
  cases hba : lexLt b a with
  | false => rfl
  | true =>
    have h := lexLt_trans a b a hab hba
    rw [lexLt_irrefl] at h
    cases h

theorem mem_insertSorted (s : List Char) : ∀ (l : List (List Char)) (x : List Char),
    x ∈ insertSorted s l ↔ x = s ∨ x ∈ l := by
  intro l
  induction l with
  | nil => intro x; simp [insertSorted]
  | cons t rest ih =>
    intro x
    unfold insertSorted
    by_cases h1 : lexLt s t
    · rw [if_pos h1]
      simp [List.mem_cons]
    · rw [if_neg h1]
      by_cases h2 : s = t
      · rw [if_pos h2]
        subst h2
        simp [List.mem_cons]
      · rw [if_neg h2]
        simp only [List.mem_cons, ih]
        tauto

theorem pairwise_insertSorted (s : List Char) : ∀ l : List (List Char),
    List.Pairwise ltP l → List.Pairwise ltP (insertSorted s l) := by
  intro l
  induction l with
  | nil => intro _; simp [insertSorted, ltP]
  | cons t rest ih =>
    intro hp
    rcases List.pairwise_cons.mp hp with ⟨hhead, htail⟩
    unfold insertSorted
    by_cases h1 : lexLt s t
    · rw [if_pos h1]
      refine List.pairwise_cons.mpr ⟨?_, hp⟩
      intro y hy
      rcases List.mem_cons.mp hy with rfl | hy'
      · exact h1
      · exact lexLt_trans s t y h1 (hhead y hy')
    · rw [if_neg h1]
      by_cases h2 : s = t
      · rw [if_pos h2]
        exact hp
      · rw [if_neg h2]
        have hts : ltP t s := by
          cases hts : lexLt t s with
          | true => exact hts
          | false =>
            exact absurd (lexLt_conn s t (by simpa using h1) hts).symm (Ne.symm h2)
        refine List.pairwise_cons.mpr ⟨?_, ih htail⟩
        intro y hy
        rcases (mem_insertSorted s rest y).mp hy with rfl | hy'
        · exact hts
        · exact hhead y hy'

theorem mem_sortDedup : ∀ (l : List (List Char)) (x : List Char),
    x ∈ sortDedup l ↔ x ∈ l := by
  intro l
  induction l with
  | nil => intro x; simp [sortDedup]
  | cons s rest ih =>
    intro x
    unfold sortDedup
    rw [mem_insertSorted, ih, List.mem_cons]

theorem pairwise_sortDedup : ∀ l : List (List Char),
    List.Pairwise ltP (sortDedup l) := by
  intro l
  induction l with
  | nil => simp [sortDedup]
  | cons s rest ih => exact pairwise_insertSorted s (sortDedup rest) ih

theorem eq_of_pairwise_mem : ∀ l₁ l₂ : List (List Char),
    List.Pairwise ltP l₁ → List.Pairwise ltP l₂ →
    (∀ x, x ∈ l₁ ↔ x ∈ l₂) → l₁ = l₂ := by
  intro l₁
  induction l₁ with
  | nil =>
    intro l₂ _ _ hmem
    cases l₂ with
    | nil => rfl
    | cons b t₂ =>
      exact absurd ((hmem b).mpr (List.mem_cons_self b t₂)) (List.not_mem_nil b)
  | cons a t₁ ih =>
    intro l₂ hp₁ hp₂ hmem
    cases l₂ with
    | nil =>
      exact absurd ((hmem a).mp (List.mem_cons_self a t₁)) (List.not_mem_nil a)
    | cons b t₂ =>
      rcases List.pairwise_cons.mp hp₁ with ⟨hha, hta⟩
      rcases List.pairwise_cons.mp hp₂ with ⟨hhb, htb⟩
      have hab : a = b := by
        rcases List.mem_cons.mp ((hmem a).mp (List.mem_cons_self a t₁)) with h | h
        · exact h
        · rcases List.mem_cons.mp ((hmem b).mpr (List.mem_cons_self b t₂)) with h' | h'
          · exact h'.symm
          · have h1 : ltP b a := hhb a h
            have h2 : ltP a b := hha b h'
            have := lexLt_trans a b a h2 h1
            rw [lexLt_irrefl] at this
            cases this
      subst hab
      have htmem : ∀ x, x ∈ t₁ ↔ x ∈ t₂ := by
        intro x
        constructor
        · intro hx
          have hax : ltP a x := hha x hx
          rcases List.mem_cons.mp ((hmem x).mp (List.mem_cons_of_mem a hx)) with rfl | h'
          · rw [ltP, lexLt_irrefl] at hax
            cases hax
          · exact h'
        · intro hx
          have hax : ltP a x := hhb x hx
          rcases List.mem_cons.mp ((hmem x).mpr (List.mem_cons_of_mem a hx)) with rfl | h'
          · rw [ltP, lexLt_irrefl] at hax
            cases hax
          · exact h'
      rw [ih t₂ hta htb htmem]

theorem sortDedup_perm_inv (l₁ l₂ : List (List Char)) (h : l₁.Perm l₂) :
    sortDedup l₁ = sortDedup l₂ :=
  eq_of_pairwise_mem (sortDedup l₁) (sortDedup l₂)
    (pairwise_sortDedup l₁) (pairwise_sortDedup l₂)
    (fun x => by rw [mem_sortDedup, mem_sortDedup]; exact h.mem_iff)

theorem sortDedup_idem (l : List (List Char)) :
    sortDedup (sortDedup l) = sortDedup l :=
  eq_of_pairwise_mem (sortDedup (sortDedup l)) (sortDedup l)
    (pairwise_sortDedup (sortDedup l)) (pairwise_sortDedup l)
    (fun x => mem_sortDedup (sortDedup l) x)

theorem digitVal_getD_le_nine (c : Char) : (digitVal? c).getD 0 ≤ 9 := by
  unfold digitVal?
  split
  next h => simp only [Option.getD_some]; omega
  next =>
    split
    next h => simp only [Option.getD_some]; omega
    next =>
      split
      next h => simp only [Option.getD_some]; omega
      next =>
        split
        next h => simp only [Option.getD_some]; omega
        next => simp

theorem digitVal_of_ascii (c : Char) (h1 : 48 ≤ c.toNat) (h2 : c.toNat ≤ 57) :
    (digitVal? c).getD 0 = c.toNat - 48 := by
  unfold digitVal?
  rw [if_pos ⟨h1, h2⟩]
  rfl

theorem isDigit_ascii_range (c : Char) (hc : c.toNat < 128)
    (hd : isDigitB c = true) : 48 ≤ c.toNat ∧ c.toNat ≤ 57 := by
  unfold isDigitB digitVal? at hd
  split at hd
  next h => exact h
  next =>
    split at hd
    next h => omega
    next =>
      split at hd
      next h => omega
      next =>
        split at hd
        next h => omega
        next => simp at hd

theorem scanMatches_cons (a : Char) (rest : List Char) :
    scanMatches (a :: rest) =
      if isPrefixB jobSearchLit (a :: rest) &&
          ((((a :: rest).drop 11).take 8).length == 8) &&
          (((a :: rest).drop 11).take 8).all isDigitB then
        (((a :: rest).drop 11).take 8) :: scanMatches rest
      else scanMatches rest := rfl

theorem scanMatches_chars : ∀ l s : List Char, s ∈ scanMatches l → ∀ c ∈ s, c ∈ l := by
  intro l
  induction l with
  | nil => intro s hs; simp [scanMatches] at hs
  | cons a rest ih =>
    intro s hs c hc
    rw [scanMatches_cons] at hs
    split at hs
    · rcases List.mem_cons.mp hs with rfl | hs'
      · exact List.mem_of_mem_drop (List.mem_of_mem_take hc)
      · exact List.mem_cons_of_mem a (ih s hs' c hc)
    · exact List.mem_cons_of_mem a (ih s hs c hc)

theorem collectIds_ascii (doc : HtmlDoc) (hdoc : doc.ascii = true) :
    ∀ s ∈ collectIds doc, ∀ c ∈ s, c.toNat < 128 := by
  unfold HtmlDoc.ascii at hdoc
  rw [Bool.and_eq_true, Bool.and_eq_true] at hdoc
  obtain ⟨⟨hA, hB⟩, hC⟩ := hdoc
  have htext : ∀ c ∈ doc.text, c.toNat < 128 := fun c hc =>
    of_decide_eq_true (List.all_eq_true.mp hA c hc)
  have hlinks : ∀ h ∈ doc.linkHrefs, ∀ c ∈ h, c.toNat < 128 := fun h hh c hc =>
    of_decide_eq_true (List.all_eq_true.mp (List.all_eq_true.mp hC h hh) c hc)
  intro s hs c hc
  unfold collectIds at hs
  split at hs
  · exact htext c (scanMatches_chars doc.text s hs c hc)
  · rcases List.mem_append.mp hs with hs1 | hs2
    · rcases List.mem_append.mp hs1 with hr | hf
      · unfold regionIds at hr
        cases hmr : doc.region with
        | none =>
          rw [hmr] at hr
          simp at hr
        | some r =>
          rw [hmr] at hr
          have hra : r.all (fun c => decide (c.toNat < 128)) = true := by
            rw [hmr] at hB
            exact hB
          exact of_decide_eq_true
            (List.all_eq_true.mp hra c (scanMatches_chars r s hr c hc))
      · unfold fullIds at hf
        split at hf
        · exact htext c (scanMatches_chars doc.text s hf c hc)
        · simp at hf
    · unfold linkIds at hs2
      rcases List.mem_filterMap.mp hs2 with ⟨h, hh, hhead⟩
      have hsm : s ∈ scanMatches h := List.mem_of_mem_head? hhead
      exact hlinks h hh c (scanMatches_chars h s hsm c hc)

theorem digitsToNat_lt_pow : ∀ l : List Char, digitsToNat l < 10 ^ l.length := by
  intro l
  induction l with
  | nil => simp [digitsToNat]
  | cons c cs ih =>
    calc digitsToNat (c :: cs)
        = (digitVal? c).getD 0 * 10 ^ cs.length + digitsToNat cs := rfl
      _ ≤ 9 * 10 ^ cs.length + digitsToNat cs :=
          Nat.add_le_add_right (Nat.mul_le_mul_right _ (digitVal_getD_le_nine c)) _
      _ < 9 * 10 ^ cs.length + 10 ^ cs.length := Nat.add_lt_add_left ih _
      _ = 10 ^ (cs.length + 1) := by ring
      _ = 10 ^ (c :: cs).length := by rw [List.length_cons]

theorem digitsToNat_lt_of_lexLt : ∀ l₁ l₂ : List Char,
    l₁.length = l₂.length →
    (∀ c ∈ l₁, 48 ≤ c.toNat ∧ c.toNat ≤ 57) →
    (∀ c ∈ l₂, 48 ≤ c.toNat ∧ c.toNat ≤ 57) →
    lexLt l₁ l₂ = true → digitsToNat l₁ < digitsToNat l₂ := by
  intro l₁
  induction l₁ with
  | nil =>
    intro l₂ hlen _ _ hlex
    cases l₂ with
    | nil => simp [lexLt] at hlex
    | cons b bs => simp at hlen
  | cons a as ih =>
    intro l₂ hlen h₁ h₂ hlex
    cases l₂ with
    | nil => simp at hlen
    | cons b bs =>
      have hlen' : as.length = bs.length := by simpa using hlen
      have hda := h₁ a (List.mem_cons_self a as)
      have hdb := h₂ b (List.mem_cons_self b bs)
      have h₁' : ∀ c ∈ as, 48 ≤ c.toNat ∧ c.toNat ≤ 57 :=
        fun c hc => h₁ c (List.mem_cons_of_mem a hc)
      have h₂' : ∀ c ∈ bs, 48 ≤ c.toNat ∧ c.toNat ≤ 57 :=
        fun c hc => h₂ c (List.mem_cons_of_mem b hc)
      have e1 : digitsToNat (a :: as) = (a.toNat - 48) * 10 ^ as.length + digitsToNat as := by
        show (digitVal? a).getD 0 * 10 ^ as.length + digitsToNat as = _
        rw [digitVal_of_ascii a hda.1 hda.2]
      have e2 : digitsToNat (b :: bs) = (b.toNat - 48) * 10 ^ bs.length + digitsToNat bs := by
        show (digitVal? b).getD 0 * 10 ^ bs.length + digitsToNat bs = _
        rw [digitVal_of_ascii b hdb.1 hdb.2]
      simp only [lexLt, charLtB] at hlex
      by_cases hab : a.toNat < b.toNat
      · have hrest : digitsToNat as < 10 ^ as.length := digitsToNat_lt_pow as
        have hstep : a.toNat - 48 + 1 ≤ b.toNat - 48 := by omega
        calc digitsToNat (a :: as)
            = (a.toNat - 48) * 10 ^ as.length + digitsToNat as := e1
          _ < (a.toNat - 48) * 10 ^ as.length + 10 ^ as.length :=
              Nat.add_lt_add_left hrest _
          _ = (a.toNat - 48 + 1) * 10 ^ as.length := by ring
          _ ≤ (b.toNat - 48) * 10 ^ as.length := Nat.mul_le_mul_right _ hstep
          _ = (b.toNat - 48) * 10 ^ bs.length := by rw [hlen']
          _ ≤ (b.toNat - 48) * 10 ^ bs.length + digitsToNat bs := Nat.le_add_right _ _
          _ = digitsToNat (b :: bs) := e2.symm
      · by_cases hba : b.toNat < a.toNat
        · simp [hab, hba] at hlex
        · have heq : a.toNat = b.toNat := by omega
          simp only [hab, hba, decide_False, Bool.false_eq_true, if_false] at hlex
          have hrec := ih bs hlen' h₁' h₂' hlex
          calc digitsToNat (a :: as)
              = (a.toNat - 48) * 10 ^ as.length + digitsToNat as := e1
            _ < (a.toNat - 48) * 10 ^ as.length + digitsToNat bs :=
                Nat.add_lt_add_left hrec _
            _ = (b.toNat - 48) * 10 ^ bs.length + digitsToNat bs := by rw [heq, hlen']
            _ = digitsToNat (b :: bs) := e2.symm

/-- C8 (amended): on documents containing only ASCII characters — where
the digit model coincides with Python's — identifier extraction returns
a strictly ascending, hence duplicate-free, list of integers, each
parsed from an 8-character digit token and hence below 10^8; the
sorted-set construction is invariant under permutation of the collected
matches (order-independence of the intermediate set) and idempotent,
unconditionally.  Neither the 8-digit shape nor, on documents with
non-ASCII Unicode digits, the ascending/duplicate-free properties hold
of the integer output: the set is sorted by code point but converted by
digit value, see the counterexample. -/
theorem c8_extract_sorted_dedup :
    (∀ doc : HtmlDoc, doc.ascii = true →
      List.Pairwise (· < ·) (extract_job_ids_from_html doc) ∧
        (extract_job_ids_from_html doc).Nodup ∧
        ∀ n ∈ extract_job_ids_from_html doc, n < 10 ^ 8) ∧
      (∀ l₁ l₂ : List (List Char), l₁.Perm l₂ → sortDedup l₁ = sortDedup l₂) ∧
      (∀ l : List (List Char), sortDedup (sortDedup l) = sortDedup l) := by
  refine ⟨?_, sortDedup_perm_inv, sortDedup_idem⟩
  intro doc hdoc
  have hfilter : ∀ s ∈ (sortDedup (collectIds doc)).filter
      (fun s => s.length == 8 && s.all isDigitB),
      s.length = 8 ∧ ∀ c ∈ s, 48 ≤ c.toNat ∧ c.toNat ≤ 57 := by
    intro s hs
    rcases List.mem_filter.mp hs with ⟨hmem, hp⟩
    have hp' : (s.length == 8) = true ∧ s.all isDigitB = true := by
      simpa [Bool.and_eq_true] using hp
    have hascii : ∀ c ∈ s, c.toNat < 128 :=
      collectIds_ascii doc hdoc s ((mem_sortDedup (collectIds doc) s).mp hmem)
    refine ⟨by simpa using hp'.1, ?_⟩
    intro c hc
    exact isDigit_ascii_range c (hascii c hc) (List.all_eq_true.mp hp'.2 c hc)
  have hpw : List.Pairwise ltP ((sortDedup (collectIds doc)).filter
      (fun s => s.length == 8 && s.all isDigitB)) :=
    List.Pairwise.filter _ (pairwise_sortDedup (collectIds doc))
  have hmain : List.Pairwise (· < ·) (extract_job_ids_from_html doc) := by
    unfold extract_job_ids_from_html
    rw [List.pairwise_map]
    refine List.Pairwise.imp_of_mem ?_ hpw
    intro a b ha hb hab
    have h8a := hfilter a ha
    have h8b := hfilter b hb
    exact digitsToNat_lt_of_lexLt a b (by rw [h8a.1, h8b.1]) h8a.2 h8b.2 hab
  refine ⟨hmain, List.Pairwise.imp (fun h => Nat.ne_of_lt h) hmain, ?_⟩
  intro n hn
  unfold extract_job_ids_from_html at hn
  rcases List.mem_map.mp hn with ⟨s, hs, rfl⟩
  have h8 := hfilter s hs
  have hlt := digitsToNat_lt_pow s
  rw [h8.1] at hlt
  exact hlt

theorem c8_witness :
    extract_job_ids_from_html c8wDoc = [10410399, 10410427] ∧
      (10410427 : Nat) < 10 ^ 8 ∧
      sortDedup ["10410427".data, "10410399".data] =
        sortDedup ["10410399".data, "10410427".data] ∧
      sortDedup (sortDedup ["10410427".data, "10410399".data]) =
        sortDedup ["10410427".data, "10410399".data] :=
  ⟨by decide,
    (c8_extract_sorted_dedup.1 c8wDoc (by decide)).2.2 10410427 (by decide),
    c8_extract_sorted_dedup.2.1 _ _ (List.Perm.swap _ _ _),
    c8_extract_sorted_dedup.2.2 _⟩

/-- C8 counterexample: three failures of the claim on the extractor's
real (Unicode) semantics.  (i) The token `job-search/00000001` yields
`[1]`: the returned value is not an 8-digit integer, because leading
zeros survive the 8-character filter and are dropped by `int`.
(ii) With an ASCII token `99999999` and an Arabic-Indic token
`٠٠٠٠٠٠٠١` (both accepted by Python's `\d` and `str.isdigit`), the
output is `[99999999, 1]` — not ascending, since the set is sorted by
code point (ASCII `9` sorts before U+0660) but converted by digit value.
(iii) With tokens `00000001` and `٠٠٠٠٠٠٠١` the output is `[1, 1]` —
not duplicate-free. -/
theorem c8_counterexample :
    (extract_job_ids_from_html c8xDoc = [1] ∧ ¬ 10 ^ 7 ≤ (1 : Nat)) ∧
      (extract_job_ids_from_html c8uDoc = [99999999, 1] ∧
        ¬ List.Pairwise (· < ·) (extract_job_ids_from_html c8uDoc)) ∧
      (extract_job_ids_from_html c8vDoc = [1, 1] ∧
        ¬ (extract_job_ids_from_html c8vDoc).Nodup) := by decide

end Handshook
